import Mathlib

/-!
Verification of the EasyCal utility layer (`src/utils.js`).

The JavaScript source is shallowly embedded: JS strings are Lean `String`s
(operated on through their `List Char` contents, so that every definition is
executable by kernel reduction), JS numbers that hold integers are `Nat`/`Int`,
JS floating-point arithmetic on the statistics path is modelled with `ℚ`,
JS `Date` objects are modelled as integer milliseconds since the Unix epoch
(with the proleptic Gregorian civil-date conversion the ECMAScript
specification uses, in a UTC-only setting), and the one `throw` site is
modelled with `Except`.
-/

/- ===================== character / string helpers ===================== -/

/-- Splitting a character list at every character satisfying a predicate:
consecutive separators yield empty pieces, and leading or trailing separators
yield leading or trailing empty pieces. -/
def splitOnPred (p : Char → Bool) : List Char → List (List Char)
  | [] => [[]]
  | c :: rest =>
    match splitOnPred p rest with
    | [] => if p c then [[], []] else [[c]]
    | w :: ws => if p c then [] :: w :: ws else (c :: w) :: ws

/-- JavaScript `String.prototype.split(sep)` for a single-character
separator. -/
def splitOnChar (sep : Char) (cs : List Char) : List (List Char) :=
  splitOnPred (fun c => decide (c = sep)) cs

/-- Reading a non-empty all-digit character list as a natural number, the way
JavaScript `Number(...)` reads the components of a well-formed `HH:MM` or
`YYYY-MM-DD` string.  Anything else is `none` (JS would give `NaN`). -/
def digitsToNat? (cs : List Char) : Option Nat :=
  if cs ≠ [] ∧ cs.all (fun c => c.isDigit) then
    some (cs.foldl (fun n c => n * 10 + (c.toNat - '0'.toNat)) 0)
  else none

/-- `n.toString().padStart(2, '0')` for a natural number `n`. -/
def pad2 (n : Nat) : String := if n < 10 then "0" ++ toString n else toString n

/-- Rendering a minute-of-day counter the way the slot loop does:
`${Math.floor(m / 60).padStart(2,'0')}:${(m % 60).padStart(2,'0')}`. -/
def formatTime (totalMinutes : Nat) : String :=
  pad2 (totalMinutes / 60) ++ ":" ++ pad2 (totalMinutes % 60)

/-- `const [h, m] = s.split(':').map(Number)` on a time string.  Components
that are not plain digit runs are modelled as `0` (JavaScript would produce
`NaN`; every claim quantifies only over well-formed `HH:MM` strings). -/
def parseHM (s : String) : Nat × Nat :=
  match (splitOnChar ':' s.data).map digitsToNat? with
  | [some h, some m] => (h, m)
  | _ => (0, 0)

/- ===================== generateTimeSlots ===================== -/

/-- The body of the `while (currentMinutes < closeMinutes)` loop of
`generateTimeSlots`, with an explicit fuel argument making the recursion
structural.  `generateTimeSlots` supplies fuel `closeMinutes - currentMinutes`,
which is enough for the loop to run to completion whenever `interval ≥ 1`;
the termination behaviour of the unbounded JS loop itself is captured by
`slotsLoopTerminates` below. -/
def slotsFromFuel : Nat → Nat → Nat → Nat → List String
  | 0, _, _, _ => []
  | fuel + 1, currentMinutes, closeMinutes, interval =>
    if currentMinutes < closeMinutes then
      formatTime currentMinutes ::
        slotsFromFuel fuel (currentMinutes + interval) closeMinutes interval
    else []

/-- `generateTimeSlots(openTime, closeTime, interval)` from `src/utils.js`
(the JS default `interval = 30` is passed explicitly by callers here). -/
def generateTimeSlots (openTime closeTime : String) (interval : Nat) : List String :=
  let om := parseHM openTime
  let cm := parseHM closeTime
  let currentMinutes := om.1 * 60 + om.2
  let closeMinutes := cm.1 * 60 + cm.2
  slotsFromFuel (closeMinutes - currentMinutes) currentMinutes closeMinutes interval

/-- The loop guard `currentMinutes < closeMinutes` of `generateTimeSlots`
eventually becomes false (the loop terminates) iff some number of iterations
drives the counter up to the close bound.  Stated over `ℤ` so that
non-positive intervals can be discussed. -/
def slotsLoopTerminates (currentMinutes closeMinutes interval : Int) : Prop :=
  ∃ n : Nat, ¬ (currentMinutes + n * interval < closeMinutes)

/- ===================== calculateEndTime ===================== -/

/-- `calculateEndTime(startTime, duration)` from `src/utils.js`. -/
def calculateEndTime (startTime : String) (duration : Nat) : String :=
  let hm := parseHM startTime
  let totalMinutes := hm.1 * 60 + hm.2 + duration
  pad2 (totalMinutes / 60 % 24) ++ ":" ++ pad2 (totalMinutes % 60)

-- sanity checks of the embedding against the documented examples
example : parseHM "09:30" = (9, 30) := by decide
example : generateTimeSlots "09:00" "11:00" 30 = ["09:00", "09:30", "10:00", "10:30"] := by decide
example : generateTimeSlots "09:00" "09:00" 30 = [] := by decide
example : calculateEndTime "23:30" 30 = "00:00" := by decide

/- ===================== time-slot lemmas ===================== -/

/-- One step of the ceiling-division count: with `1 ≤ iv` and `1 ≤ dd`,
`⌈dd / iv⌉ = ⌈(dd - iv) / iv⌉ + 1` (in the `(d + (iv - 1)) / iv` form). -/
theorem ceil_count_step (dd iv : Nat) (hiv : 1 ≤ iv) (hdd : 1 ≤ dd) :
    (dd + (iv - 1)) / iv = (dd - iv + (iv - 1)) / iv + 1 := by
  rcases le_or_lt dd iv with hle | hlt
  · have h1 : dd + (iv - 1) = (dd - 1) + iv := by omega
    have h2 : dd - iv = 0 := by omega
    have h3 : (dd - 1) / iv = 0 := Nat.div_eq_of_lt (by omega)
    have h4 : (iv - 1) / iv = 0 := Nat.div_eq_of_lt (by omega)
    rw [h1, Nat.add_div_right _ (by omega), h2, h3]
    simp [h4]
  · have h1 : dd + (iv - 1) = (dd - 1 - iv + iv) + iv := by omega
    have h2 : dd - iv + (iv - 1) = (dd - 1 - iv) + iv := by omega
    rw [h1, h2, Nat.add_div_right _ (by omega), Nat.add_div_right _ (by omega)]

/-- The fuelled slot loop, given enough fuel and a positive interval, produces
exactly the ascending arithmetic progression of formatted times below the
close bound. -/
theorem slotsFromFuel_eq :
    ∀ (fuel currentMinutes closeMinutes interval : Nat), 1 ≤ interval →
      closeMinutes - currentMinutes ≤ fuel →
      slotsFromFuel fuel currentMinutes closeMinutes interval =
        (List.range ((closeMinutes - currentMinutes + (interval - 1)) / interval)).map
          (fun k => formatTime (currentMinutes + k * interval)) := by
  intro fuel
  induction fuel with
  | zero =>
    intro cur close iv hiv hf
    have hd : close - cur = 0 := by omega
    rw [slotsFromFuel, hd, Nat.zero_add, Nat.div_eq_of_lt (by omega)]
    rfl
  | succ fuel ih =>
    intro cur close iv hiv hf
    by_cases hcc : cur < close
    · rw [slotsFromFuel, if_pos hcc, ih (cur + iv) close iv hiv (by omega)]
      have harg : close - (cur + iv) = close - cur - iv := by omega
      rw [harg, ceil_count_step (close - cur) iv hiv (by omega),
        List.range_succ_eq_map, List.map_cons, List.map_map]
      refine congrArg₂ _ (by norm_num) ?_
      refine List.map_congr_left fun k _ => ?_
      simp only [Function.comp_apply]
      congr 1
      rw [Nat.succ_eq_add_one]
      ring
    · have hd : close - cur = 0 := by omega
      rw [slotsFromFuel, if_neg hcc, hd, Nat.zero_add, Nat.div_eq_of_lt (by omega)]
      rfl

/-- For `n < 100`, `pad2 n` is the two-digit decimal string. -/
theorem pad2_data : ∀ a : Nat, a < 100 →
    (pad2 a).data = [Nat.digitChar (a / 10), Nat.digitChar (a % 10)] := by decide

theorem digitChar_inj : ∀ a : Nat, a < 10 → ∀ b : Nat, b < 10 →
    Nat.digitChar a = Nat.digitChar b → a = b := by decide

theorem pad2_inj {a b : Nat} (ha : a < 100) (hb : b < 100) (h : pad2 a = pad2 b) :
    a = b := by
  have hd : (pad2 a).data = (pad2 b).data := by rw [h]
  rw [pad2_data a ha, pad2_data b hb] at hd
  simp only [List.cons.injEq, and_true] at hd
  have h1 := digitChar_inj (a / 10) (by omega) (b / 10) (by omega) hd.1
  have h2 := digitChar_inj (a % 10) (by omega) (b % 10) (by omega) hd.2
  omega

theorem formatTime_inj {t₁ t₂ : Nat} (h₁ : t₁ < 6000) (h₂ : t₂ < 6000)
    (h : formatTime t₁ = formatTime t₂) : t₁ = t₂ := by
  have hd : (formatTime t₁).data = (formatTime t₂).data := by rw [h]
  simp only [formatTime, String.data_append] at hd
  rw [pad2_data (t₁ / 60) (by omega), pad2_data (t₂ / 60) (by omega),
    pad2_data (t₁ % 60) (by omega), pad2_data (t₂ % 60) (by omega)] at hd
  simp only [List.append_assoc, List.cons_append, List.nil_append, List.cons.injEq,
    and_true, true_and] at hd
  obtain ⟨q1, q2, q3, q4⟩ := hd
  have e1 := digitChar_inj (t₁ / 60 / 10) (by omega) (t₂ / 60 / 10) (by omega) q1
  have e2 := digitChar_inj (t₁ / 60 % 10) (by omega) (t₂ / 60 % 10) (by omega) q2
  have e3 := digitChar_inj (t₁ % 60 / 10) (by omega) (t₂ % 60 / 10) (by omega) q3
  have e4 := digitChar_inj (t₁ % 60 % 10) (by omega) (t₂ % 60 % 10) (by omega) q4
  omega

/-- `generateTimeSlots` as a closed-form arithmetic progression (shared
workhorse for the slot-generation claims). -/
theorem generateTimeSlots_eq (openTime closeTime : String) (oh om ch cm interval : Nat)
    (hpo : parseHM openTime = (oh, om)) (hpc : parseHM closeTime = (ch, cm))
    (hiv : 1 ≤ interval) :
    generateTimeSlots openTime closeTime interval =
      (List.range ((ch * 60 + cm - (oh * 60 + om) + (interval - 1)) / interval)).map
        (fun k => formatTime (oh * 60 + om + k * interval)) := by
  unfold generateTimeSlots
  rw [hpo, hpc]
  exact slotsFromFuel_eq _ _ _ _ hiv (Nat.le_refl _)

/-- C1: for open/close times in `HH:MM` format with close no earlier than open
and a positive interval, `generateTimeSlots` returns the ascending sequence of
`HH:MM` strings that starts at the open time and steps by `interval` minutes,
containing exactly the `⌈(close-open)/interval⌉` stepped times strictly below
the close time; the close time itself never appears, and the result is empty
when open equals close. -/
theorem generateTimeSlots_C1
    (openTime closeTime : String) (oh om ch cm interval : Nat)
    (hpo : parseHM openTime = (oh, om)) (hpc : parseHM closeTime = (ch, cm))
    (hoc : openTime = pad2 oh ++ ":" ++ pad2 om)
    (hcc : closeTime = pad2 ch ++ ":" ++ pad2 cm)
    (hoh : oh ≤ 23) (hom : om ≤ 59) (hch : ch ≤ 23) (hcm : cm ≤ 59)
    (hiv : 1 ≤ interval) (hle : oh * 60 + om ≤ ch * 60 + cm) :
    generateTimeSlots openTime closeTime interval =
      (List.range ((ch * 60 + cm - (oh * 60 + om) + (interval - 1)) / interval)).map
        (fun k => formatTime (oh * 60 + om + k * interval)) ∧
    (oh * 60 + om < ch * 60 + cm →
      (generateTimeSlots openTime closeTime interval).head? = some openTime) ∧
    (oh * 60 + om = ch * 60 + cm →
      generateTimeSlots openTime closeTime interval = []) ∧
    closeTime ∉ generateTimeSlots openTime closeTime interval := by
  have hmain := generateTimeSlots_eq openTime closeTime oh om ch cm interval hpo hpc hiv
  have hfmtOpen : formatTime (oh * 60 + om) = openTime := by
    have e1 : (oh * 60 + om) / 60 = oh := by omega
    have e2 : (oh * 60 + om) % 60 = om := by omega
    rw [formatTime, e1, e2, hoc]
  have hfmtClose : formatTime (ch * 60 + cm) = closeTime := by
    have e1 : (ch * 60 + cm) / 60 = ch := by omega
    have e2 : (ch * 60 + cm) % 60 = cm := by omega
    rw [formatTime, e1, e2, hcc]
  refine ⟨hmain, ?_, ?_, ?_⟩
  · intro hlt
    have hn : 1 ≤ (ch * 60 + cm - (oh * 60 + om) + (interval - 1)) / interval := by
      rw [Nat.one_le_div_iff (by omega)]
      omega
    obtain ⟨n', hn'⟩ : ∃ n', (ch * 60 + cm - (oh * 60 + om) + (interval - 1)) / interval
        = n' + 1 := ⟨_, (Nat.succ_pred_eq_of_pos hn).symm⟩
    rw [hmain, hn', List.range_succ_eq_map]
    simp [hfmtOpen]
  · intro heq
    rw [hmain, heq]
    simp [Nat.div_eq_of_lt (show interval - 1 < interval by omega)]
  · intro hmem
    rw [hmain] at hmem
    obtain ⟨k, hk, heq⟩ := List.mem_map.mp hmem
    rw [List.mem_range] at hk
    have hbound : oh * 60 + om + k * interval < ch * 60 + cm := by
      have h1 : k + 1 ≤ (ch * 60 + cm - (oh * 60 + om) + (interval - 1)) / interval := hk
      have h2 : (k + 1) * interval
          ≤ ((ch * 60 + cm - (oh * 60 + om) + (interval - 1)) / interval) * interval :=
        Nat.mul_le_mul_right _ h1
      have h3 : ((ch * 60 + cm - (oh * 60 + om) + (interval - 1)) / interval) * interval
          ≤ ch * 60 + cm - (oh * 60 + om) + (interval - 1) := Nat.div_mul_le_self _ _
      have h4 : (k + 1) * interval = k * interval + interval := by ring
      omega
    rw [← hfmtClose] at heq
    have := formatTime_inj (by omega) (by omega) heq
    omega

/-- C1 witness: the documented examples
`generateTimeSlots("09:00","11:00") = ["09:00","09:30","10:00","10:30"]` and
`generateTimeSlots("09:00","09:00") = []`, obtained from the C1 theorem at
concrete inputs. -/
theorem generateTimeSlots_C1_witness :
    generateTimeSlots "09:00" "11:00" 30 = ["09:00", "09:30", "10:00", "10:30"] ∧
    generateTimeSlots "09:00" "09:00" 30 = [] := by
  constructor
  · have h := (generateTimeSlots_C1 "09:00" "11:00" 9 0 11 0 30 (by decide) (by decide)
      (by decide) (by decide) (by decide) (by decide) (by decide) (by decide)
      (by decide) (by decide)).1
    rw [h]; decide
  · exact (generateTimeSlots_C1 "09:00" "09:00" 9 0 9 0 30 (by decide) (by decide)
      (by decide) (by decide) (by decide) (by decide) (by decide) (by decide)
      (by decide) (by decide)).2.2.1 (by decide)

/-- C10: the slot-building loop of `generateTimeSlots` terminates for every
open/close pair precisely when the interval is positive: with `interval ≥ 1`
the loop guard eventually fails and the produced list has length
`⌈(closeMinutes - openMinutes)/interval⌉` when close is after open, while for
`interval ≤ 0` and open earlier than close the guard never becomes false. -/
theorem generateTimeSlots_C10 :
    (∀ currentMinutes closeMinutes interval : Int,
        1 ≤ interval → slotsLoopTerminates currentMinutes closeMinutes interval) ∧
    (∀ currentMinutes closeMinutes interval : Int,
        interval ≤ 0 → currentMinutes < closeMinutes →
          ¬ slotsLoopTerminates currentMinutes closeMinutes interval) ∧
    (∀ (openTime closeTime : String) (oh om ch cm interval : Nat),
        parseHM openTime = (oh, om) → parseHM closeTime = (ch, cm) →
        1 ≤ interval → oh * 60 + om < ch * 60 + cm →
        (generateTimeSlots openTime closeTime interval).length =
          (ch * 60 + cm - (oh * 60 + om) + (interval - 1)) / interval) := by
  refine ⟨?_, ?_, ?_⟩
  · intro cur close iv hiv
    refine ⟨(close - cur).toNat, ?_⟩
    have h1 : close - cur ≤ ((close - cur).toNat : Int) := Int.self_le_toNat _
    have h2 : ((close - cur).toNat : Int) * 1 ≤ ((close - cur).toNat : Int) * iv :=
      mul_le_mul_of_nonneg_left hiv (Int.natCast_nonneg _)
    simp only [not_lt]
    nlinarith
  · intro cur close iv hiv hlt
    rintro ⟨n, hn⟩
    apply hn
    have h1 : (n : Int) * iv ≤ (n : Int) * 0 :=
      mul_le_mul_of_nonneg_left hiv (Int.natCast_nonneg _)
    simp only [mul_zero] at h1
    linarith
  · intro openTime closeTime oh om ch cm iv hpo hpc hiv hlt
    rw [generateTimeSlots_eq openTime closeTime oh om ch cm iv hpo hpc hiv]
    simp

/-- C10 witness: with a zero interval and `09:00 < 11:00` the loop guard never
fails, while with the default interval 30 the loop terminates and produces
`⌈120/30⌉ = 4` slots. -/
theorem generateTimeSlots_C10_witness :
    ¬ slotsLoopTerminates 540 660 0 ∧
    slotsLoopTerminates 540 660 30 ∧
    (generateTimeSlots "09:00" "11:00" 30).length = 4 := by
  refine ⟨generateTimeSlots_C10.2.1 540 660 0 (by norm_num) (by norm_num),
    generateTimeSlots_C10.1 540 660 30 (by norm_num), ?_⟩
  rw [generateTimeSlots_C10.2.2 "09:00" "11:00" 9 0 11 0 30 (by decide) (by decide)
    (by decide) (by decide)]

/-- C3: for a start time `HH:MM` and a non-negative integer duration,
`calculateEndTime` returns the string whose hour part is
`⌊(h*60 + m + duration)/60⌋ mod 24` and whose minute part is
`(h*60 + m + duration) mod 60`, each zero-padded to two digits (so it wraps
past midnight). -/
theorem calculateEndTime_C3 (startTime : String) (h m duration : Nat)
    (hp : parseHM startTime = (h, m)) (hh : h ≤ 23) (hm : m ≤ 59) :
    calculateEndTime startTime duration =
      pad2 ((h * 60 + m + duration) / 60 % 24) ++ ":" ++
        pad2 ((h * 60 + m + duration) % 60) := by
  unfold calculateEndTime
  rw [hp]

/-- C3 witness: `calculateEndTime("23:30", 30) = "00:00"` (midnight wrap),
obtained from the C3 theorem at a concrete input. -/
theorem calculateEndTime_C3_witness : calculateEndTime "23:30" 30 = "00:00" := by
  rw [calculateEndTime_C3 "23:30" 23 30 30 (by decide) (by decide) (by decide)]
  decide

/- ===================== updateHour ===================== -/

/-- JavaScript object spread update `{ ...obj, [field]: value }` on an object
modelled as an insertion-ordered association list: an existing key keeps its
position and gets the new value, a fresh key is appended at the end. -/
def setField (obj : List (String × α)) (field : String) (value : α) :
    List (String × α) :=
  if obj.any (fun p => decide (p.1 = field)) then
    obj.map (fun p => if p.1 = field then (p.1, value) else p)
  else obj ++ [(field, value)]

/-- `updateHour(hours, idx, field, value)` from `src/utils.js`:
`const updated = [...hours]; updated[idx] = { ...updated[idx], [field]: value };`.
(When `idx` is out of range the JS code would extend the array; every claim
about `updateHour` quantifies over in-range indices only, where `List.set`
is the exact behaviour.) -/
def updateHour (hours : List (List (String × α))) (idx : Nat) (field : String)
    (value : α) : List (List (String × α)) :=
  hours.set idx (setField (hours.getD idx []) field value)

/-- JavaScript property read `obj[g]` on the association-list object model:
the first pair with the requested key wins. -/
def getKey (g : String) : List (String × α) → Option α
  | [] => none
  | p :: rest => if p.1 = g then some p.2 else getKey g rest

theorem getKey_map_set (obj : List (String × α)) (field g : String) (value : α)
    (hne : g ≠ field) :
    getKey g (obj.map (fun p => if p.1 = field then (p.1, value) else p)) =
      getKey g obj := by
  induction obj with
  | nil => rfl
  | cons q obj ih =>
    by_cases hq : q.1 = field
    · have hqg : ¬ q.1 = g := fun hcontra => hne (by rw [← hcontra, hq])
      have hfg : ¬ field = g := fun hcontra => hne hcontra.symm
      simp [getKey, hq, hqg, hfg, ih]
    · by_cases hqg : q.1 = g
      · simp [getKey, hq, hqg, hne]
      · simp [getKey, hq, hqg, ih]

theorem getKey_append_single (obj : List (String × α)) (field g : String)
    (value : α) (hne : g ≠ field) :
    getKey g (obj ++ [(field, value)]) = getKey g obj := by
  induction obj with
  | nil => simp [getKey, hne.symm]
  | cons q obj ih =>
    by_cases hqg : q.1 = g
    · simp [getKey, hqg]
    · simp [getKey, hqg, ih]

theorem getKey_setField_self (obj : List (String × α)) (field : String) (value : α) :
    getKey field (setField obj field value) = some value := by
  unfold setField
  by_cases h : obj.any (fun p => decide (p.1 = field))
  · rw [if_pos h]
    induction obj with
    | nil => simp at h
    | cons q obj ih =>
      by_cases hq : q.1 = field
      · simp [getKey, hq]
      · have h' : obj.any (fun p => decide (p.1 = field)) := by
          rcases List.any_eq_true.mp h with ⟨p, hp, hpf⟩
          rcases List.mem_cons.mp hp with hp | hp
          · subst hp; exact absurd (of_decide_eq_true hpf) hq
          · exact List.any_eq_true.mpr ⟨p, hp, hpf⟩
        simp [getKey, hq, ih h']
  · rw [if_neg h]
    induction obj with
    | nil => simp [getKey]
    | cons q obj ih =>
      have hq : ¬ q.1 = field := by
        intro hcontra
        exact h (List.any_eq_true.mpr ⟨q, List.mem_cons_self _ _, by simpa using hcontra⟩)
      have h' : ¬ obj.any (fun p => decide (p.1 = field)) := by
        intro hcontra
        rcases List.any_eq_true.mp hcontra with ⟨p, hp, hpf⟩
        exact h (List.any_eq_true.mpr ⟨p, List.mem_cons_of_mem _ hp, hpf⟩)
      simp [getKey, hq, ih h']

theorem getKey_setField_other (obj : List (String × α)) (field g : String)
    (value : α) (hne : g ≠ field) :
    getKey g (setField obj field value) = getKey g obj := by
  unfold setField
  by_cases h : obj.any (fun p => decide (p.1 = field))
  · rw [if_pos h]
    exact getKey_map_set obj field g value hne
  · rw [if_neg h]
    exact getKey_append_single obj field g value hne

/-- C4: for an in-range index `i`, `updateHour` returns a list of the same
length in which every index other than `i` holds the original entry, and the
entry at `i` agrees with the original entry on every field other than `f`,
while field `f` now holds `v`.  (The embedding is purely functional, so the
original collection is untouched by construction.) -/
theorem updateHour_C4 (hours : List (List (String × α))) (idx : Nat)
    (field : String) (value : α) (hidx : idx < hours.length) :
    (updateHour hours idx field value).length = hours.length ∧
    (∀ j, j ≠ idx → (updateHour hours idx field value)[j]? = hours[j]?) ∧
    getKey field ((updateHour hours idx field value).getD idx []) = some value ∧
    (∀ g, g ≠ field →
      getKey g ((updateHour hours idx field value).getD idx []) =
        getKey g (hours.getD idx [])) := by
  have hentry : (updateHour hours idx field value).getD idx [] =
      setField (hours.getD idx []) field value := by
    unfold updateHour
    rw [List.getD_eq_getElem?_getD, List.getElem?_set_self (by simpa using hidx)]
    rfl
  refine ⟨?_, ?_, ?_, ?_⟩
  · unfold updateHour
    exact List.length_set ..
  · intro j hj
    unfold updateHour
    exact List.getElem?_set_ne (fun hcontra => hj hcontra.symm)
  · rw [hentry]
    exact getKey_setField_self _ _ _
  · intro g hg
    rw [hentry]
    exact getKey_setField_other _ _ _ _ hg

/-- C4 witness: updating field `"open"` of entry 1 in a concrete two-entry
working-hours table sets exactly that field, keeps the other field of entry 1,
and leaves entry 0 untouched, by the C4 theorem at concrete inputs. -/
theorem updateHour_C4_witness :
    getKey "open"
      ((updateHour [[("day", "sun"), ("open", "09:00")],
                    [("day", "mon"), ("open", "10:00")]] 1 "open" "11:00").getD 1 [])
      = some "11:00" ∧
    (updateHour [[("day", "sun"), ("open", "09:00")],
                 [("day", "mon"), ("open", "10:00")]] 1 "open" "11:00")[0]?
      = some [("day", "sun"), ("open", "09:00")] ∧
    getKey "day"
      ((updateHour [[("day", "sun"), ("open", "09:00")],
                    [("day", "mon"), ("open", "10:00")]] 1 "open" "11:00").getD 1 [])
      = some "mon" := by
  have h := updateHour_C4
    [[("day", "sun"), ("open", "09:00")], [("day", "mon"), ("open", "10:00")]]
    1 "open" "11:00" (by decide)
  refine ⟨h.2.2.1, ?_, ?_⟩
  · rw [h.2.1 0 (by decide)]
    decide
  · rw [h.2.2.2 "day" (by decide)]
    decide

/- ===================== canProceed ===================== -/

/-- The ECMAScript whitespace class used by `String.prototype.trim()` and by
the regex class `\s`: the `WhiteSpace` productions (TAB, VT, FF, SP, NBSP,
ZWNBSP and the Unicode space separators) together with the `LineTerminator`
productions (LF, CR, LS, PS). -/
def jsWhitespace (c : Char) : Bool :=
  let n := c.toNat
  n = 0x9 || n = 0xA || n = 0xB || n = 0xC || n = 0xD || n = 0x20 ||
    n = 0xA0 || n = 0x1680 || (0x2000 ≤ n && n ≤ 0x200A) || n = 0x2028 ||
    n = 0x2029 || n = 0x202F || n = 0x205F || n = 0x3000 || n = 0xFEFF

/-- JavaScript `String.prototype.trim()`: ECMAScript whitespace removed from
both ends. -/
def jsTrim (s : String) : String :=
  ⟨((s.data.dropWhile jsWhitespace).reverse.dropWhile jsWhitespace).reverse⟩

-- sanity checks: NBSP and vertical tab are whitespace to JavaScript
example : jsTrim " " = "" := by decide
example : jsTrim "\u000B" = "" := by decide
example : jsTrim " a " = "a" := by decide

/-- The booking-wizard form state inspected by `canProceed` (§3 of the spec):
`selectedService` is an object or `null`, `selectedDate` a date or `null`,
`clientName`/`clientPhone` strings that may be absent. -/
structure FormData (Service DateV : Type) where
  clientName : Option String
  clientPhone : Option String
  selectedService : Option Service
  selectedDate : Option DateV
  selectedTime : String

/-- `canProceed(step, formData)` from `src/utils.js`.  JS truthiness of a
string is `s ≠ ""`; `clientName && clientName.trim()` is therefore "present,
non-empty, and non-empty after trimming". -/
def canProceed {Service DateV : Type} (step : Int) (f : FormData Service DateV) :
    Bool :=
  if step = 1 then
    (match f.clientName with
     | none => false
     | some s => !s.isEmpty && !(jsTrim s).isEmpty) &&
    (match f.clientPhone with
     | none => false
     | some s => !s.isEmpty && !(jsTrim s).isEmpty)
  else if step = 2 then f.selectedService.isSome
  else if step = 3 then f.selectedDate.isSome && !f.selectedTime.isEmpty
  else false

theorem string_isEmpty_false (s : String) : s.isEmpty = false ↔ s ≠ "" := by
  constructor
  · intro h hcontra
    subst hcontra
    exact absurd h (by decide)
  · intro h
    cases hb : s.isEmpty
    · rfl
    · exact absurd ((String.isEmpty_iff s).mp hb) h

/-- C5: `canProceed` is true at step 1 iff both client name and phone are
present, non-empty and not whitespace-only; at step 2 iff a service is
selected (non-null); at step 3 iff both a date and a time are truthy; and it
is false at every other step number (fails closed). -/
theorem canProceed_C5 {Service DateV : Type} (step : Int)
    (f : FormData Service DateV) :
    (canProceed 1 f = true ↔
      ((∃ s, f.clientName = some s ∧ s ≠ "" ∧ jsTrim s ≠ "") ∧
       (∃ s, f.clientPhone = some s ∧ s ≠ "" ∧ jsTrim s ≠ ""))) ∧
    (canProceed 2 f = true ↔ f.selectedService ≠ none) ∧
    (canProceed 3 f = true ↔ (f.selectedDate ≠ none ∧ f.selectedTime ≠ "")) ∧
    (step ≠ 1 → step ≠ 2 → step ≠ 3 → canProceed step f = false) := by
  refine ⟨?_, ?_, ?_, ?_⟩
  · show (if (1 : Int) = 1 then _ else _) = true ↔ _
    rw [if_pos rfl]
    cases hn : f.clientName <;> cases hp : f.clientPhone <;>
      simp [string_isEmpty_false]
  · show (if (2 : Int) = 1 then _ else _) = true ↔ _
    rw [if_neg (by decide), if_pos rfl]
    exact Option.isSome_iff_ne_none
  · show (if (3 : Int) = 1 then _ else _) = true ↔ _
    rw [if_neg (by decide), if_neg (by decide), if_pos rfl]
    simp [string_isEmpty_false, Option.isSome_iff_ne_none]
  · intro h1 h2 h3
    show (if step = 1 then _ else _) = false
    rw [if_neg h1, if_neg h2, if_neg h3]

/-- C5 witness: a concrete form whose phone is whitespace-only fails step 1,
passes step 2, and every unknown step number fails, via the C5 theorem. -/
theorem canProceed_C5_witness :
    canProceed 1 (⟨some "John", some " ", some "cut", some 0, "10:00"⟩ :
        FormData String Nat) = false ∧
    canProceed 2 (⟨some "John", some " ", some "cut", some 0, "10:00"⟩ :
        FormData String Nat) = true ∧
    canProceed 7 (⟨some "John", some " ", some "cut", some 0, "10:00"⟩ :
        FormData String Nat) = false := by
  refine ⟨?_, ?_, ?_⟩
  · have h := (canProceed_C5 1 (⟨some "John", some " ", some "cut", some 0, "10:00"⟩ :
      FormData String Nat)).1
    cases hb : canProceed 1 (⟨some "John", some " ", some "cut", some 0, "10:00"⟩ :
      FormData String Nat)
    · rfl
    · exfalso
      obtain ⟨-, s, hs, -, htrim⟩ := h.mp hb
      obtain rfl : " " = s := by simpa using hs
      exact htrim (by decide)
  · exact (canProceed_C5 2 (⟨some "John", some " ", some "cut", some 0, "10:00"⟩ :
      FormData String Nat)).2.1.mpr (by decide)
  · exact (canProceed_C5 7 (⟨some "John", some " ", some "cut", some 0, "10:00"⟩ :
      FormData String Nat)).2.2.2 (by decide) (by decide) (by decide)

/- ===================== getInitials ===================== -/

/-- `getInitials(name)` from `src/utils.js`:
`name.split(' ').map(w => w[0]).join('').slice(0, 2)` guarded by
`if (!name) return ''`.  `w[0]` of an empty word is `undefined`, which
`join('')` renders as the empty string — modelled by `w.take 1`. -/
def getInitials (name : Option String) : String :=
  match name with
  | none => ""
  | some s =>
    if s.isEmpty then ""
    else ⟨((((splitOnChar ' ' s.data)).map (fun w => w.take 1)).flatten).take 2⟩

/-- The behaviour the spec sentence describes, read literally: split the name
on runs of (any) whitespace, take the first character of each word,
concatenate, truncate to two characters. -/
def getInitialsClaimed (name : Option String) : String :=
  match name with
  | none => ""
  | some s =>
    ⟨((((splitOnPred (fun c => c.isWhitespace) s.data).filter
        (fun w => !w.isEmpty)).map (fun w => w.take 1)).flatten).take 2⟩

/-- Empty words contribute nothing to the joined initials, so filtering them
away first does not change the result. -/
theorem join_map_take1_filter (ws : List (List Char)) :
    ((ws.filter (fun w => !w.isEmpty)).map (fun w => w.take 1)).flatten =
      (ws.map (fun w => w.take 1)).flatten := by
  induction ws with
  | nil => rfl
  | cons w ws ih =>
    cases w with
    | nil => simpa using ih
    | cons c cs => simpa using ih

/-- C7 counterexample: the claim says `getInitials` splits on *whitespace*
runs, but the code splits on the space character only: on `"a\tb"` the code
returns `"a"` while the claimed behaviour gives `"ab"`. -/
theorem getInitials_C7_counterexample :
    getInitials (some "a\tb") = "a" ∧
    getInitialsClaimed (some "a\tb") = "ab" ∧
    getInitials (some "a\tb") ≠ getInitialsClaimed (some "a\tb") := by decide

/-- C7 (amended): `getInitials` splits the name on runs of *space characters*
(consecutive spaces act as one separator, but other whitespace such as tabs
does not separate), takes the first character of each word, concatenates,
truncates to at most two characters, and returns `""` for null/undefined or
empty input.  It operates on logical characters, so non-Latin names work. -/
theorem getInitials_C7 :
    getInitials none = "" ∧
    ∀ s : String, getInitials (some s) =
      ⟨((((splitOnChar ' ' s.data).filter (fun w => !w.isEmpty)).map
          (fun w => w.take 1)).flatten).take 2⟩ := by
  refine ⟨rfl, fun s => ?_⟩
  by_cases hs : s.isEmpty
  · obtain rfl : s = "" := (String.isEmpty_iff s).mp hs
    decide
  · show (if s.isEmpty then "" else _) = _
    rw [if_neg hs, join_map_take1_filter]

/-- C7 witness: the documented examples, including a Hebrew name and multiple
spaces, via the amended C7 theorem at concrete inputs. -/
theorem getInitials_C7_witness :
    getInitials (some "John Doe") = "JD" ∧
    getInitials (some "John") = "J" ∧
    getInitials (some "") = "" ∧
    getInitials (some "יעקב כהן") = "יכ" ∧
    getInitials (some "John  Doe") = "JD" := by
  refine ⟨?_, ?_, ?_, ?_, ?_⟩
  · rw [getInitials_C7.2 "John Doe"]; decide
  · rw [getInitials_C7.2 "John"]; decide
  · rw [getInitials_C7.2 ""]; decide
  · rw [getInitials_C7.2 "יעקב כהן"]; decide
  · rw [getInitials_C7.2 "John  Doe"]; decide

/- ===================== isValidPhone ===================== -/

/-- `phone.replace(/\s/g, '')`: remove every character of the ECMAScript
whitespace class `\s`. -/
def stripWS (s : String) : List Char := s.data.filter (fun c => !jsWhitespace c)

-- sanity check: an NBSP inside a phone number is stripped, as in JavaScript
example : stripWS "050 1234567" = stripWS "0501234567" := by decide

/-- The tail of the regex `/^0[5][0-9][-]?[0-9]{7}$/` after the first three
characters: an optional hyphen followed by exactly seven digits, then end of
input. -/
def phoneTail (rest : List Char) : Bool :=
  match rest with
  | c :: ds =>
    if c = '-' then decide (ds.length = 7) && ds.all (fun x => x.isDigit)
    else decide ((c :: ds).length = 7) && (c :: ds).all (fun x => x.isDigit)
  | [] => false

/-- The regex `/^0[5][0-9][-]?[0-9]{7}$/` of `isValidPhone`. -/
def phonePattern (cs : List Char) : Bool :=
  match cs with
  | c0 :: c1 :: d :: rest =>
    decide (c0 = '0') && decide (c1 = '5') && d.isDigit && phoneTail rest
  | _ => false

/-- `isValidPhone(phone)` from `src/utils.js`: falsy input (null, undefined,
empty string) is rejected, otherwise the whitespace-stripped string is tested
against the regex. -/
def isValidPhone (phone : Option String) : Bool :=
  match phone with
  | none => false
  | some s => if s.isEmpty then false else phonePattern (stripWS s)

theorem phoneTail_iff (tail : List Char) :
    phoneTail tail = true ↔
      ((∃ ds, tail = '-' :: ds ∧ ds.length = 7 ∧ ∀ c ∈ ds, c.isDigit = true) ∨
       (tail.length = 7 ∧ ∀ c ∈ tail, c.isDigit = true)) := by
  cases tail with
  | nil => simp [phoneTail]
  | cons c ds =>
    by_cases hc : c = '-'
    · subst hc
      rw [phoneTail, if_pos rfl]
      constructor
      · intro h
        rw [Bool.and_eq_true, decide_eq_true_iff, List.all_eq_true] at h
        exact Or.inl ⟨ds, rfl, h.1, h.2⟩
      · rintro (⟨ds', heq, h7, hall⟩ | ⟨h7, hall⟩)
        · injection heq with h1 h2
          subst h2
          rw [Bool.and_eq_true, decide_eq_true_iff, List.all_eq_true]
          exact ⟨h7, hall⟩
        · have : ('-' : Char).isDigit = true := hall '-' (List.mem_cons_self _ _)
          exact absurd this (by decide)
    · rw [phoneTail, if_neg hc]
      constructor
      · intro h
        rw [Bool.and_eq_true, decide_eq_true_iff, List.all_eq_true] at h
        exact Or.inr ⟨h.1, h.2⟩
      · rintro (⟨ds', heq, h7, hall⟩ | ⟨h7, hall⟩)
        · exact absurd (List.cons.injEq .. ▸ heq).1 hc
        · rw [Bool.and_eq_true, decide_eq_true_iff, List.all_eq_true]
          exact ⟨h7, hall⟩

theorem phonePattern_iff (cs : List Char) :
    phonePattern cs = true ↔
      ∃ (d : Char) (tail : List Char),
        cs = '0' :: '5' :: d :: tail ∧ d.isDigit = true ∧
        ((∃ ds, tail = '-' :: ds ∧ ds.length = 7 ∧ ∀ c ∈ ds, c.isDigit = true) ∨
         (tail.length = 7 ∧ ∀ c ∈ tail, c.isDigit = true)) := by
  match cs with
  | [] => simp [phonePattern]
  | [c0] => simp [phonePattern]
  | [c0, c1] => simp [phonePattern]
  | c0 :: c1 :: d :: rest =>
    rw [phonePattern]
    simp only [Bool.and_eq_true, decide_eq_true_iff, List.cons.injEq]
    constructor
    · rintro ⟨⟨⟨h0, h5⟩, hd⟩, htail⟩
      exact ⟨d, rest, ⟨h0, h5, rfl, rfl⟩, hd, (phoneTail_iff rest).mp htail⟩
    · rintro ⟨d', tail', ⟨h0, h5, hd', htail'⟩, hdig, hrest⟩
      subst h0; subst h5; subst hd'; subst htail'
      exact ⟨⟨⟨rfl, rfl⟩, hdig⟩, (phoneTail_iff rest).mpr hrest⟩

/-- C8: `isValidPhone` strips all whitespace and accepts exactly the strings
matching `0`, `5`, a digit, an optional `-`, then exactly seven digits;
null/undefined/empty input is rejected (and the embedding is a total
function, so no exception is possible). -/
theorem isValidPhone_C8 :
    isValidPhone none = false ∧
    isValidPhone (some "") = false ∧
    ∀ s : String, (isValidPhone (some s) = true ↔
      ∃ (d : Char) (tail : List Char),
        stripWS s = '0' :: '5' :: d :: tail ∧ d.isDigit = true ∧
        ((∃ ds, tail = '-' :: ds ∧ ds.length = 7 ∧ ∀ c ∈ ds, c.isDigit = true) ∨
         (tail.length = 7 ∧ ∀ c ∈ tail, c.isDigit = true))) := by
  refine ⟨rfl, rfl, fun s => ?_⟩
  by_cases hs : s.isEmpty
  · obtain rfl : s = "" := (String.isEmpty_iff s).mp hs
    constructor
    · intro h
      exact absurd h (by decide)
    · rintro ⟨d, tail, heq, -⟩
      exact absurd heq (by simp [stripWS])
  · show (if s.isEmpty then false else phonePattern (stripWS s)) = true ↔ _
    rw [if_neg hs]
    exact phonePattern_iff (stripWS s)

/-- C8 witness: `"050-1234567"` is accepted (via the pattern side of the C8
theorem, with an explicit match of the regex), while null input is rejected. -/
theorem isValidPhone_C8_witness :
    isValidPhone (some "050-1234567") = true ∧
    isValidPhone none = false := by
  refine ⟨?_, isValidPhone_C8.1⟩
  refine (isValidPhone_C8.2.2 "050-1234567").mpr
    ⟨'0', ['-', '1', '2', '3', '4', '5', '6', '7'], by decide, by decide, ?_⟩
  exact Or.inl ⟨['1', '2', '3', '4', '5', '6', '7'], by decide, by decide, by decide⟩

/- ===================== JS Date model ===================== -/

/-- A JavaScript `Date` value: integer milliseconds since the Unix epoch.
The model is UTC-only (host local time = UTC). -/
abbrev JSDate := Int

def msPerDay : Int := 86400000

/-- Proleptic Gregorian civil date from a day number (days since 1970-01-01),
following Hinnant's `civil_from_days`, the arithmetic ECMAScript engines use.
Returns `(year, month, day)` with `month ∈ [1,12]`. -/
def civilFromDays (z0 : Int) : Int × Int × Int :=
  let z := z0 + 719468
  let era := Int.fdiv z 146097
  let doe := z - era * 146097
  let yoe := Int.fdiv (doe - Int.fdiv doe 1460 + Int.fdiv doe 36524 - Int.fdiv doe 146096) 365
  let y := yoe + era * 400
  let doy := doe - (365 * yoe + Int.fdiv yoe 4 - Int.fdiv yoe 100)
  let mp := Int.fdiv (5 * doy + 2) 153
  let d := doy - Int.fdiv (153 * mp + 2) 5 + 1
  let m := mp + (if mp < 10 then 3 else -9)
  (y + (if m ≤ 2 then 1 else 0), m, d)

/-- Day number from a civil date (Hinnant's `days_from_civil`), with the
ECMAScript `MakeDay` normalisation: a month outside `[1,12]` rolls the year,
and any integer day-of-month is allowed (overflow rolls into later months,
which is exactly how `setMonth`/`setFullYear` normalise `Feb 31` etc.). -/
def daysFromCivil (y0 m0 d : Int) : Int :=
  let y1 := y0 + Int.fdiv (m0 - 1) 12
  let m := Int.emod (m0 - 1) 12 + 1
  let y := y1 - (if m ≤ 2 then 1 else 0)
  let era := Int.fdiv y 400
  let yoe := y - era * 400
  let mp := Int.emod (m + 9) 12
  let doy := Int.fdiv (153 * mp + 2) 5 + d - 1
  let doe := yoe * 365 + Int.fdiv yoe 4 - Int.fdiv yoe 100 + doy
  era * 146097 + doe - 719468

/-- `d.setHours(0, 0, 0, 0)`: truncate to the start of the (UTC) day. -/
def jsSetMidnight (t : JSDate) : JSDate := Int.fdiv t msPerDay * msPerDay

/-- `d.setDate(d.getDate() + n)`: day-of-month arithmetic with rollover is
exactly an `n`-day shift of the time value. -/
def jsAddDays (t : JSDate) (n : Int) : JSDate := t + n * msPerDay

/-- `d.setMonth(d.getMonth() + n)`: same day-of-month and time-of-day in the
shifted month, normalised by `MakeDay`. -/
def jsAddMonths (t : JSDate) (n : Int) : JSDate :=
  let days := Int.fdiv t msPerDay
  let tod := t - days * msPerDay
  let c := civilFromDays days
  daysFromCivil c.1 (c.2.1 + n) c.2.2 * msPerDay + tod

/-- `d.setFullYear(d.getFullYear() + n)`. -/
def jsAddYears (t : JSDate) (n : Int) : JSDate :=
  let days := Int.fdiv t msPerDay
  let tod := t - days * msPerDay
  let c := civilFromDays days
  daysFromCivil (c.1 + n) c.2.1 c.2.2 * msPerDay + tod

/-- `new Date(str)` for ISO `YYYY-MM-DD` strings: UTC midnight of that civil
date.  Any other shape is modelled as an invalid date (`none`, JS `NaN`),
whose comparisons are all false. -/
def parseISODate (s : String) : Option JSDate :=
  match (splitOnChar '-' s.data).map digitsToNat? with
  | [some y, some m, some d] => some (daysFromCivil y m d * msPerDay)
  | _ => none

-- sanity checks against known ECMAScript time values
example : daysFromCivil 1970 1 1 = 0 := by decide
example : civilFromDays 20103 = (2025, 1, 15) := by decide
example : parseISODate "2025-01-15" = some 1736899200000 := by decide
example : jsAddMonths 1736899200000 (-1) = 1734220800000 := by decide

/- ===================== getStatsForPeriod ===================== -/

/-- An appointment record (§3 of the spec). -/
structure Appointment where
  id : Int
  clientName : String
  clientPhone : String
  service : String
  date : String
  time : String
  duration : Int
  price : Int
  status : String

/-- The aggregate statistics value object returned by `getStatsForPeriod`. -/
structure StatsResult where
  totalIncome : Int
  totalAppointments : Nat
  completedAppointments : Nat
  avgIncome : Int
  popularService : String
  incomeChange : Int

/-- `Math.round(x)`: round half toward positive infinity, on exact
rationals. -/
def jsRound (q : ℚ) : Int := ⌊q + 1 / 2⌋

/-- The `switch (period)` of `getStatsForPeriod`: the start instant of the
window, or `none` on the `default:` (throw) branch. -/
def startDateFor (period : String) (now : JSDate) : Option JSDate :=
  if period = "today" then some (jsSetMidnight now)
  else if period = "week" then some (jsAddDays now (-7))
  else if period = "month" then some (jsAddMonths now (-1))
  else if period = "year" then some (jsAddYears now (-1))
  else none

/-- The filter
`apt => new Date(apt.date) >= startDate && apt.status !== 'cancelled'`. -/
def periodFilter (appointments : List Appointment) (startDate : JSDate) :
    List Appointment :=
  appointments.filter (fun apt =>
    match parseISODate apt.date with
    | some t => decide (startDate ≤ t) && decide (apt.status ≠ "cancelled")
    | none => false)

/-- `serviceCount[apt.service] = (serviceCount[apt.service] || 0) + 1` on an
insertion-ordered table (a JS object with non-index string keys keeps
insertion order for `Object.entries`). -/
def bumpService (table : List (String × Nat)) (s : String) : List (String × Nat) :=
  if table.any (fun p => decide (p.1 = s)) then
    table.map (fun p => if p.1 = s then (p.1, p.2 + 1) else p)
  else table ++ [(s, 1)]

/-- The `periodAppointments.forEach(...)` aggregation of service counts. -/
def serviceCounts (services : List String) : List (String × Nat) :=
  services.foldl bumpService []

/-- `Object.entries(serviceCount).sort((a, b) => b[1] - a[1])`: JS
`Array.prototype.sort` is stable and the comparator orders by count
descending. -/
def sortByCountDesc (entries : List (String × Nat)) : List (String × Nat) :=
  entries.mergeSort (fun a b => decide (b.2 ≤ a.2))

/-- A string that is an ECMAScript array-index property key: the canonical
decimal representation of an integer below `2^32 - 1`. -/
def isArrayIndexKey (s : String) : Bool :=
  match digitsToNat? s.data with
  | some n => decide (toString n = s) && decide (n < 4294967295)
  | none => false

/-- The numeric value of an array-index key (`0` on other strings, where it
is never used). -/
def keyIndexVal (s : String) : Nat := (digitsToNat? s.data).getD 0

/-- `Object.entries(obj)`: ECMAScript own-property enumeration order —
array-index-like keys first, in ascending numeric order, then the remaining
string keys in insertion order. -/
def objectEntries (table : List (String × Nat)) : List (String × Nat) :=
  (table.filter (fun p => isArrayIndexKey p.1)).mergeSort
      (fun a b => decide (keyIndexVal a.1 ≤ keyIndexVal b.1)) ++
    table.filter (fun p => !isArrayIndexKey p.1)

-- sanity checks: canonical integer strings below 2^32 - 1 are index keys
example : isArrayIndexKey "42" = true := by decide
example : isArrayIndexKey "042" = false := by decide
example : isArrayIndexKey "x" = false := by decide
example : isArrayIndexKey "4294967295" = false := by decide

/-- The aggregate block of `getStatsForPeriod` applied to the filtered
appointment list. -/
def statsFromList (periodAppointments : List Appointment) : StatsResult :=
  let totalIncome : Int := periodAppointments.foldl (fun sum apt => sum + apt.price) 0
  let totalAppointments := periodAppointments.length
  let completedAppointments :=
    (periodAppointments.filter (fun apt => decide (apt.status = "completed"))).length
  let avgIncome := if totalAppointments > 0 then
      jsRound ((totalIncome : ℚ) / (totalAppointments : ℚ)) else 0
  let serviceCount := serviceCounts (periodAppointments.map (fun apt => apt.service))
  let popularService := (sortByCountDesc (objectEntries serviceCount)).head?
  let prevTotalIncome : ℚ := (totalIncome : ℚ) * (85 / 100)
  let incomeChange := if prevTotalIncome > 0 then
      jsRound (((totalIncome : ℚ) - prevTotalIncome) / prevTotalIncome * 100) else 0
  { totalIncome := totalIncome
    totalAppointments := totalAppointments
    completedAppointments := completedAppointments
    avgIncome := avgIncome
    popularService := match popularService with | some e => e.1 | none => "-"
    incomeChange := incomeChange }

/-- `getStatsForPeriod(appointments, period, referenceDate)` from
`src/utils.js`; the `throw new Error(...)` is modelled with `Except.error`
carrying the same message. -/
def getStatsForPeriod (appointments : List Appointment) (period : String)
    (referenceDate : JSDate) : Except String StatsResult :=
  match startDateFor period referenceDate with
  | none => Except.error ("Invalid period: " ++ period)
  | some startDate => Except.ok (statsFromList (periodFilter appointments startDate))

/-- C2: an unrecognised period tag makes `getStatsForPeriod` fail with an
`Invalid period` error whose message contains the offending tag, and no
statistics object is produced (the `Except.error` result carries no
`StatsResult`; inputs are untouched since the embedding is pure). -/
theorem getStatsForPeriod_C2 (appointments : List Appointment) (period : String)
    (referenceDate : JSDate)
    (h1 : period ≠ "today") (h2 : period ≠ "week") (h3 : period ≠ "month")
    (h4 : period ≠ "year") :
    getStatsForPeriod appointments period referenceDate =
      Except.error ("Invalid period: " ++ period) ∧
    (∃ p, "Invalid period: " ++ period = p ++ period) ∧
    (∀ stats, getStatsForPeriod appointments period referenceDate ≠ Except.ok stats) := by
  have hnone : startDateFor period referenceDate = none := by
    unfold startDateFor
    rw [if_neg h1, if_neg h2, if_neg h3, if_neg h4]
  refine ⟨?_, ⟨"Invalid period: ", rfl⟩, ?_⟩
  · unfold getStatsForPeriod
    rw [hnone]
  · intro stats hcontra
    unfold getStatsForPeriod at hcontra
    rw [hnone] at hcontra
    exact Except.noConfusion hcontra

/-- C2 witness: the tag `"invalid_period"` from the test suite produces
exactly the error message containing the tag. -/
theorem getStatsForPeriod_C2_witness :
    getStatsForPeriod [] "invalid_period" 0 =
      Except.error "Invalid period: invalid_period" := by
  have h := getStatsForPeriod_C2 [] "invalid_period" 0
    (by decide) (by decide) (by decide) (by decide)
  rw [h.1]
  rfl

theorem statsFromList_totalIncome (l : List Appointment) :
    (statsFromList l).totalIncome = l.foldl (fun sum apt => sum + apt.price) 0 := rfl

theorem statsFromList_incomeChange (l : List Appointment) :
    (statsFromList l).incomeChange =
      if ((statsFromList l).totalIncome : ℚ) * (85 / 100) > 0 then
        jsRound ((((statsFromList l).totalIncome : ℚ) -
          ((statsFromList l).totalIncome : ℚ) * (85 / 100)) /
            (((statsFromList l).totalIncome : ℚ) * (85 / 100)) * 100)
      else 0 := rfl

theorem statsFromList_popularService (l : List Appointment) :
    (statsFromList l).popularService =
      match (sortByCountDesc (objectEntries
          (serviceCounts (l.map (fun apt => apt.service))))).head? with
      | some e => e.1
      | none => "-" := rfl

theorem startDateFor_isSome (period : String) (now : JSDate)
    (h : period = "today" ∨ period = "week" ∨ period = "month" ∨ period = "year") :
    ∃ start, startDateFor period now = some start := by
  unfold startDateFor
  rcases h with h | h | h | h <;> subst h <;> simp

theorem jsRound_300_17 : jsRound (300 / 17) = 18 := by
  unfold jsRound
  norm_num [Int.floor_eq_iff]

/-- C9: for a valid period tag the returned `incomeChange` is the constant 18
whenever `totalIncome > 0` (the synthetic `0.85` previous-period factor gives
`round((0.15/0.85)·100) = round(300/17) = 18` independently of the income),
and 0 when `totalIncome = 0`. -/
theorem getStatsForPeriod_C9 (appointments : List Appointment) (period : String)
    (referenceDate : JSDate)
    (hvalid : period = "today" ∨ period = "week" ∨ period = "month" ∨
      period = "year") :
    ∃ stats, getStatsForPeriod appointments period referenceDate = Except.ok stats ∧
      (0 < stats.totalIncome → stats.incomeChange = 18) ∧
      (stats.totalIncome = 0 → stats.incomeChange = 0) := by
  obtain ⟨start, hstart⟩ := startDateFor_isSome period referenceDate hvalid
  refine ⟨statsFromList (periodFilter appointments start), ?_, ?_, ?_⟩
  · unfold getStatsForPeriod
    rw [hstart]
  · intro hT
    rw [statsFromList_incomeChange]
    set T : Int := (statsFromList (periodFilter appointments start)).totalIncome
      with hTdef
    have hTQ : (0 : ℚ) < (T : ℚ) := by exact_mod_cast hT
    have hprev : ((T : ℚ) * (85 / 100)) > 0 := by positivity
    rw [if_pos hprev]
    have hne : (T : ℚ) ≠ 0 := ne_of_gt hTQ
    have hval : ((T : ℚ) - (T : ℚ) * (85 / 100)) / ((T : ℚ) * (85 / 100)) * 100
        = 300 / 17 := by
      field_simp
      ring
    rw [hval]
    exact jsRound_300_17
  · intro hT0
    rw [statsFromList_incomeChange, hT0]
    norm_num

/-- C9 witness: the C9 theorem applied to a concrete valid call. -/
theorem getStatsForPeriod_C9_witness :
    ∃ stats, getStatsForPeriod [] "week" 1736899200000 = Except.ok stats ∧
      (0 < stats.totalIncome → stats.incomeChange = 18) ∧
      (stats.totalIncome = 0 → stats.incomeChange = 0) :=
  getStatsForPeriod_C9 [] "week" 1736899200000 (Or.inr (Or.inl rfl))

/- ===================== popularService lemmas ===================== -/

theorem getKey_none_iff (table : List (String × α)) (s : String) :
    getKey s table = none ↔ table.any (fun p => decide (p.1 = s)) = false := by
  induction table with
  | nil => simp [getKey]
  | cons q table ih =>
    by_cases hq : q.1 = s <;> simp [getKey, hq, ih]

theorem getKey_append_self (table : List (String × α)) (s : String) (v : α)
    (hnone : getKey s table = none) : getKey s (table ++ [(s, v)]) = some v := by
  induction table with
  | nil => simp [getKey]
  | cons q table ih =>
    rw [getKey] at hnone
    by_cases hq : q.1 = s
    · rw [if_pos hq] at hnone
      exact absurd hnone (by simp)
    · rw [if_neg hq] at hnone
      simpa [getKey, hq] using ih hnone

theorem bump_getKey_self (table : List (String × Nat)) (s : String) :
    getKey s (bumpService table s) = some ((getKey s table).getD 0 + 1) := by
  unfold bumpService
  by_cases h : table.any (fun p => decide (p.1 = s))
  · rw [if_pos h]
    induction table with
    | nil => simp at h
    | cons q table ih =>
      by_cases hq : q.1 = s
      · simp [getKey, hq]
      · have h' : table.any (fun p => decide (p.1 = s)) := by
          rcases List.any_eq_true.mp h with ⟨p, hp, hpf⟩
          rcases List.mem_cons.mp hp with hp | hp
          · subst hp; exact absurd (of_decide_eq_true hpf) hq
          · exact List.any_eq_true.mpr ⟨p, hp, hpf⟩
        simp [getKey, hq, ih h']
  · rw [if_neg h]
    have hnone : getKey s table = none :=
      (getKey_none_iff table s).mpr (by rwa [Bool.not_eq_true] at h)
    rw [hnone, getKey_append_self table s 1 hnone]
    rfl

theorem getKey_map_bump (table : List (String × Nat)) (s g : String) (hg : g ≠ s) :
    getKey g (table.map (fun p => if p.1 = s then (p.1, p.2 + 1) else p)) =
      getKey g table := by
  induction table with
  | nil => rfl
  | cons q table ih =>
    by_cases hq : q.1 = s
    · have hqg : ¬ q.1 = g := fun hcontra => hg (by rw [← hcontra, hq])
      simp [getKey, hq, hqg, Ne.symm hg, ih]
    · by_cases hqg : q.1 = g
      · simp [getKey, hq, hqg, hg]
      · simp [getKey, hq, hqg, ih]

theorem bump_getKey_other (table : List (String × Nat)) (s g : String)
    (hg : g ≠ s) : getKey g (bumpService table s) = getKey g table := by
  unfold bumpService
  by_cases h : table.any (fun p => decide (p.1 = s))
  · rw [if_pos h]
    exact getKey_map_bump table s g hg
  · rw [if_neg h]
    exact getKey_append_single table s g 1 hg


/-- Running the `forEach` aggregation over `l` starting from any table adds
`l.count g` to the tally of each key `g`. -/
theorem foldl_bump_getKey :
    ∀ (l : List String) (table : List (String × Nat)) (g : String),
      getKey g (l.foldl bumpService table) =
        if getKey g table = none ∧ l.count g = 0 then none
        else some ((getKey g table).getD 0 + l.count g) := by
  intro l
  induction l with
  | nil =>
    intro table g
    cases hx : getKey g table <;> simp [hx]
  | cons s rest ih =>
    intro table g
    rw [List.foldl_cons, ih]
    by_cases hg : g = s
    · subst hg
      rw [bump_getKey_self]
      cases hx : getKey g table <;>
        simp [hx, List.count_cons_self] <;> omega
    · rw [bump_getKey_other table s g hg, List.count_cons_of_ne hg]

/-- The service tally of `getStatsForPeriod`: each recorded count is the
occurrence count in the aggregated list. -/
theorem serviceCounts_getKey (l : List String) (g : String) :
    getKey g (serviceCounts l) =
      if l.count g = 0 then none else some (l.count g) := by
  unfold serviceCounts
  rw [foldl_bump_getKey]
  by_cases h : l.count g = 0 <;> simp [getKey, h]

theorem bump_keys (table : List (String × Nat)) (s : String) :
    (bumpService table s).map Prod.fst =
      if table.any (fun p => decide (p.1 = s)) then table.map Prod.fst
      else table.map Prod.fst ++ [s] := by
  unfold bumpService
  by_cases h : table.any (fun p => decide (p.1 = s))
  · rw [if_pos h, if_pos h, List.map_map]
    refine List.map_congr_left fun p _ => ?_
    by_cases hp : p.1 = s <;> simp [hp]
  · rw [if_neg h, if_neg h, List.map_append]
    rfl

theorem bump_keys_nodup (table : List (String × Nat)) (s : String)
    (h : (table.map Prod.fst).Nodup) :
    ((bumpService table s).map Prod.fst).Nodup := by
  rw [bump_keys]
  by_cases ha : table.any (fun p => decide (p.1 = s))
  · rw [if_pos ha]
    exact h
  · rw [if_neg ha]
    have hs : s ∉ table.map Prod.fst := by
      intro hmem
      rcases List.mem_map.mp hmem with ⟨p, hp, hps⟩
      exact ha (List.any_eq_true.mpr ⟨p, hp, by simp [hps]⟩)
    simp [List.nodup_append, h, hs]

theorem serviceCounts_keys_nodup :
    ∀ (l : List String) (table : List (String × Nat)),
      (table.map Prod.fst).Nodup → ((l.foldl bumpService table).map Prod.fst).Nodup := by
  intro l
  induction l with
  | nil => intro table h; exact h
  | cons s rest ih =>
    intro table h
    exact ih _ (bump_keys_nodup table s h)

/-- On a table with distinct keys, membership of a pair pins down `getKey`. -/
theorem getKey_eq_some_of_mem (table : List (String × α)) (p : String × α)
    (hnd : (table.map Prod.fst).Nodup) (hmem : p ∈ table) :
    getKey p.1 table = some p.2 := by
  induction table with
  | nil => cases hmem
  | cons q table ih =>
    rcases List.mem_cons.mp hmem with hp | hp
    · subst hp
      simp [getKey]
    · have hq : ¬ q.1 = p.1 := by
        intro hcontra
        have hpk : p.1 ∈ table.map Prod.fst := List.mem_map.mpr ⟨p, hp, rfl⟩
        rw [List.map_cons] at hnd
        exact (List.nodup_cons.mp hnd).1 (hcontra ▸ hpk)
      have hnd' : (table.map Prod.fst).Nodup := by
        rw [List.map_cons] at hnd
        exact (List.nodup_cons.mp hnd).2
      simp [getKey, hq, ih hnd' hp]

/-- The head of the stable descending sort of a duplicate-free entry list is
the earliest-positioned entry of maximal count. -/
theorem sorted_head_first_max (entries : List (String × Nat))
    (hnd : entries.Nodup) (hne : entries ≠ []) :
    ∃ p : String × Nat,
      (sortByCountDesc entries).head? = some p ∧
      p ∈ entries ∧
      (∀ e ∈ entries, e.2 ≤ p.2) ∧
      (∀ e ∈ entries, e.2 = p.2 →
        entries.findIdx (fun x => decide (x = p)) ≤
          entries.findIdx (fun x => decide (x = e))) := by
  have htrans : ∀ a b c : String × Nat,
      decide (b.2 ≤ a.2) = true → decide (c.2 ≤ b.2) = true →
      decide (c.2 ≤ a.2) = true := by
    intro a b c h1 h2
    simp only [decide_eq_true_iff] at h1 h2 ⊢
    omega
  have htotal : ∀ a b : String × Nat,
      (decide (b.2 ≤ a.2) || decide (a.2 ≤ b.2)) = true := by
    intro a b
    simp only [Bool.or_eq_true, decide_eq_true_iff]
    omega
  have hperm : List.Perm (sortByCountDesc entries) entries :=
    List.mergeSort_perm _ _
  obtain ⟨p, tail, hps⟩ : ∃ p tail, sortByCountDesc entries = p :: tail := by
    cases hs : sortByCountDesc entries with
    | nil =>
      rw [hs] at hperm
      exact absurd hperm.nil_eq.symm hne
    | cons p tail => exact ⟨p, tail, rfl⟩
  have hsortpw : (sortByCountDesc entries).Pairwise
      (fun a b => decide (b.2 ≤ a.2) = true) := by
    exact @List.sorted_mergeSort (String × Nat)
      (fun a b => decide (b.2 ≤ a.2)) htrans htotal entries
  have hpmem : p ∈ entries :=
    hperm.subset (hps ▸ List.mem_cons_self _ _)
  have hmax : ∀ e ∈ entries, e.2 ≤ p.2 := by
    intro e he
    have he' : e ∈ sortByCountDesc entries := hperm.mem_iff.mpr he
    rw [hps] at he' hsortpw
    rcases List.mem_cons.mp he' with he' | he'
    · subst he'
      exact Nat.le_refl _
    · have := (List.pairwise_cons.mp hsortpw).1 e he'
      exact of_decide_eq_true this
  refine ⟨p, by rw [hps]; rfl, hpmem, hmax, ?_⟩
  intro e he htie
  by_contra hlt
  push_neg at hlt
  have hep : e ≠ p := by
    intro hcontra
    subst hcontra
    omega
  have hj : entries.findIdx (fun x => decide (x = p)) < entries.length :=
    List.findIdx_lt_length_of_exists ⟨p, hpmem, by simp⟩
  have hi : entries.findIdx (fun x => decide (x = e)) < entries.length :=
    List.findIdx_lt_length_of_exists ⟨e, he, by simp⟩
  have hij : entries.findIdx (fun x => decide (x = e)) <
      entries.findIdx (fun x => decide (x = p)) := hlt
  have hjp : entries[entries.findIdx (fun x => decide (x = p))] = p := by
    have h0 := @List.findIdx_getElem _ _ _ hj
    exact of_decide_eq_true h0
  have hie : entries[entries.findIdx (fun x => decide (x = e))] = e := by
    have h0 := @List.findIdx_getElem _ _ _ hi
    exact of_decide_eq_true h0
  have hdrop : entries.drop (entries.findIdx (fun x => decide (x = p))) =
      p :: entries.drop (entries.findIdx (fun x => decide (x = p)) + 1) := by
    rw [List.drop_eq_getElem_cons hj, hjp]
  have hetake : e ∈ entries.take (entries.findIdx (fun x => decide (x = p))) := by
    have h1 : (entries.take (entries.findIdx (fun x => decide (x = p))))[
          entries.findIdx (fun x => decide (x = e))]? =
        entries[entries.findIdx (fun x => decide (x = e))]? :=
      List.getElem?_take_of_lt hij
    have h2 : entries[entries.findIdx (fun x => decide (x = e))]? = some e := by
      rw [List.getElem?_eq_getElem hi, hie]
    exact List.getElem?_mem (h1.trans h2)
  have hsub : List.Sublist [e, p] entries := by
    have h1 : List.Sublist [e]
        (entries.take (entries.findIdx (fun x => decide (x = p)))) :=
      List.singleton_sublist.mpr hetake
    have h2 : List.Sublist [p]
        (p :: entries.drop (entries.findIdx (fun x => decide (x = p)) + 1)) :=
      List.singleton_sublist.mpr (List.mem_cons_self _ _)
    have h3 := List.Sublist.append h1 h2
    rw [← hdrop, List.take_append_drop] at h3
    exact h3
  have hle : decide (p.2 ≤ e.2) = true := by
    rw [htie]
    simp
  have hsub' : List.Sublist [e, p] (sortByCountDesc entries) :=
    List.pair_sublist_mergeSort htrans htotal hle hsub
  have hndsorted : (sortByCountDesc entries).Nodup := hperm.symm.nodup hnd
  rw [hps] at hsub' hndsorted
  have hpt : p ∈ tail := by
    cases hsub' with
    | cons _ h' => exact h'.subset (by simp)
    | cons₂ _ h' => exact absurd rfl hep
  exact (List.nodup_cons.mp hndsorted).1 hpt

/-- `Object.entries` reorders the table but enumerates exactly its entries. -/
theorem objectEntries_perm (table : List (String × Nat)) :
    List.Perm (objectEntries table) table := by
  unfold objectEntries
  have h1 : List.Perm
      ((table.filter (fun p => isArrayIndexKey p.1)).mergeSort
        (fun a b => decide (keyIndexVal a.1 ≤ keyIndexVal b.1)))
      (table.filter (fun p => isArrayIndexKey p.1)) := List.mergeSort_perm _ _
  exact (h1.append (List.Perm.refl _)).trans
    (List.filter_append_perm (fun p => isArrayIndexKey p.1) table)

/-- The head of the stable descending sort of the `Object.entries` view of
the service tally is the entry of maximal count that `Object.entries`
enumerates first, and every tallied count is an occurrence count.  This is
the `popularService` selection of `getStatsForPeriod`. -/
theorem popular_core (services : List String) (hne : services ≠ []) :
    ∃ p : String × Nat,
      (sortByCountDesc (objectEntries (serviceCounts services))).head? = some p ∧
      p ∈ objectEntries (serviceCounts services) ∧
      (∀ e ∈ objectEntries (serviceCounts services), e.2 ≤ p.2) ∧
      (∀ e ∈ objectEntries (serviceCounts services), e.2 = p.2 →
        (objectEntries (serviceCounts services)).findIdx
            (fun x => decide (x = p)) ≤
          (objectEntries (serviceCounts services)).findIdx
            (fun x => decide (x = e))) ∧
      (∀ e ∈ objectEntries (serviceCounts services), e.2 = services.count e.1) := by
  have hkeysnd : ((serviceCounts services).map Prod.fst).Nodup :=
    serviceCounts_keys_nodup services [] (by simp)
  have hnd : (serviceCounts services).Nodup := List.Nodup.of_map _ hkeysnd
  have hperm := objectEntries_perm (serviceCounts services)
  have hnd' : (objectEntries (serviceCounts services)).Nodup := hperm.symm.nodup hnd
  have hcnt : ∀ e ∈ serviceCounts services, e.2 = services.count e.1 := by
    intro e he
    have h1 : getKey e.1 (serviceCounts services) = some e.2 :=
      getKey_eq_some_of_mem _ _ hkeysnd he
    rw [serviceCounts_getKey] at h1
    by_cases h0 : services.count e.1 = 0
    · rw [if_pos h0] at h1
      exact absurd h1 (by simp)
    · rw [if_neg h0] at h1
      injection h1 with h1
      exact h1.symm
  obtain ⟨s0, rest0, hserv⟩ := List.exists_cons_of_ne_nil hne
  have hents_ne : serviceCounts services ≠ [] := by
    intro hcontra
    have h1 := serviceCounts_getKey services s0
    have hc : services.count s0 ≠ 0 := by
      subst hserv
      simp [List.count_cons_self]
    rw [if_neg hc, hcontra] at h1
    exact absurd h1 (by simp [getKey])
  have hne' : objectEntries (serviceCounts services) ≠ [] := by
    intro hcontra
    rw [hcontra] at hperm
    exact hents_ne hperm.nil_eq.symm
  obtain ⟨p, hhead, hmem', hmax', htie'⟩ := sorted_head_first_max _ hnd' hne'
  refine ⟨p, hhead, hmem', hmax', htie', ?_⟩
  intro e he
  exact hcnt e (hperm.subset he)

/-- The `popularService` field of a statistics result, `""` on the error
branch (used to state concrete facts without binders). -/
def popularServiceOf (r : Except String StatsResult) : String :=
  match r with
  | Except.ok stats => stats.popularService
  | Except.error _ => ""

/-- Four in-window appointments whose services tie two against two, with the
service `"x"` encountered first and the array-index-like service name `"42"`
encountered later. -/
def tieApts : List Appointment :=
  [{ id := 1, clientName := "a", clientPhone := "050-1111111", service := "x",
     date := "2025-01-14", time := "09:00", duration := 30, price := 100,
     status := "confirmed" },
   { id := 2, clientName := "b", clientPhone := "050-2222222", service := "x",
     date := "2025-01-14", time := "10:00", duration := 30, price := 100,
     status := "confirmed" },
   { id := 3, clientName := "c", clientPhone := "050-3333333", service := "42",
     date := "2025-01-14", time := "11:00", duration := 30, price := 100,
     status := "confirmed" },
   { id := 4, clientName := "d", clientPhone := "050-4444444", service := "42",
     date := "2025-01-14", time := "12:00", duration := 30, price := 100,
     status := "confirmed" }]

/-- C6 counterexample: the claim breaks ties by first-encounter order, but
`Object.entries` enumerates array-index-like keys first.  On four filtered
appointments with services `["x", "x", "42", "42"]` — a two-against-two tie
in which `"x"` is encountered first — the program returns `"42"`, not
`"x"`. -/
theorem getStatsForPeriod_C6_counterexample :
    (periodFilter tieApts (jsAddDays 1736899200000 (-7))).map
        (fun apt => apt.service) = ["x", "x", "42", "42"] ∧
    startDateFor "week" 1736899200000 = some (jsAddDays 1736899200000 (-7)) ∧
    popularServiceOf (getStatsForPeriod tieApts "week" 1736899200000) = "42" ∧
    popularServiceOf (getStatsForPeriod tieApts "week" 1736899200000) ≠ "x" := by
  have hL : (periodFilter tieApts (jsAddDays 1736899200000 (-7))).map
      (fun apt => apt.service) = ["x", "x", "42", "42"] := by decide
  have hstats : getStatsForPeriod tieApts "week" 1736899200000 =
      Except.ok (statsFromList
        (periodFilter tieApts (jsAddDays 1736899200000 (-7)))) := rfl
  have hpop : popularServiceOf (getStatsForPeriod tieApts "week" 1736899200000)
      = "42" := by
    rw [hstats]
    show (statsFromList (periodFilter tieApts (jsAddDays 1736899200000 (-7)))).popularService = "42"
    rw [statsFromList_popularService, hL]
    have hsc : serviceCounts ["x", "x", "42", "42"] = [("x", 2), ("42", 2)] := by
      decide
    rw [hsc]
    have hoe : objectEntries [("x", 2), ("42", 2)] = [("42", 2), ("x", 2)] := by
      unfold objectEntries
      have hf1 : ([("x", 2), ("42", 2)] : List (String × Nat)).filter
          (fun p => isArrayIndexKey p.1) = [("42", 2)] := by decide
      have hf2 : ([("x", 2), ("42", 2)] : List (String × Nat)).filter
          (fun p => !isArrayIndexKey p.1) = [("x", 2)] := by decide
      rw [hf1, hf2, List.mergeSort_singleton]
      rfl
    rw [hoe]
    have hsort : sortByCountDesc [(("42" : String), 2), (("x" : String), 2)] =
        [("42", 2), ("x", 2)] := by
      unfold sortByCountDesc
      exact List.mergeSort_of_sorted (by decide)
    rw [hsort]
    rfl
  exact ⟨hL, rfl, hpop, by rw [hpop]; decide⟩

/-- C6 (amended): for a valid period tag, `popularService` is the sentinel
`"-"` when the filtered set is empty; otherwise it is a service of the
filtered list whose tallied count is maximal, the tallied counts are exactly
the occurrence counts, and ties for the maximum are broken by the order in
which `Object.entries` enumerates the tally — array-index-like service names
(canonical integer strings below `2^32 - 1`) first in ascending numeric
order, then the remaining services in the order they were first encountered
during aggregation — via the stable descending sort. -/
theorem getStatsForPeriod_C6 (appointments : List Appointment) (period : String)
    (referenceDate : JSDate)
    (hvalid : period = "today" ∨ period = "week" ∨ period = "month" ∨
      period = "year") :
    ∃ start stats,
      startDateFor period referenceDate = some start ∧
      getStatsForPeriod appointments period referenceDate = Except.ok stats ∧
      (periodFilter appointments start = [] → stats.popularService = "-") ∧
      (periodFilter appointments start ≠ [] →
        ∃ c, (stats.popularService, c) ∈
            objectEntries (serviceCounts ((periodFilter appointments start).map
              (fun apt => apt.service))) ∧
          (∀ e ∈ objectEntries (serviceCounts ((periodFilter appointments start).map
              (fun apt => apt.service))), e.2 ≤ c) ∧
          (∀ e ∈ objectEntries (serviceCounts ((periodFilter appointments start).map
              (fun apt => apt.service))), e.2 = c →
            (objectEntries (serviceCounts ((periodFilter appointments start).map
                (fun apt => apt.service)))).findIdx
              (fun x => decide (x = (stats.popularService, c))) ≤
            (objectEntries (serviceCounts ((periodFilter appointments start).map
                (fun apt => apt.service)))).findIdx (fun x => decide (x = e))) ∧
          (∀ e ∈ objectEntries (serviceCounts ((periodFilter appointments start).map
              (fun apt => apt.service))),
            e.2 = ((periodFilter appointments start).map
              (fun apt => apt.service)).count e.1)) := by
  obtain ⟨start, hstart⟩ := startDateFor_isSome period referenceDate hvalid
  refine ⟨start, statsFromList (periodFilter appointments start), hstart, ?_, ?_, ?_⟩
  · unfold getStatsForPeriod
    rw [hstart]
  · intro hempty
    rw [statsFromList_popularService, hempty]
    simp [serviceCounts, objectEntries, sortByCountDesc]
  · intro hne
    have hserv : (periodFilter appointments start).map (fun apt => apt.service)
        ≠ [] := by
      simpa using hne
    obtain ⟨p, hhead, hmem, hmax, htie, hcnt⟩ := popular_core _ hserv
    have hpop : (statsFromList (periodFilter appointments start)).popularService
        = p.1 := by
      rw [statsFromList_popularService, hhead]
    refine ⟨p.2, ?_, hmax, ?_, hcnt⟩
    · rw [hpop]
      exact hmem
    · intro e he hc
      rw [hpop]
      exact htie e he hc

/-- C6 witness: the amended C6 theorem applied to a concrete valid call. -/
theorem getStatsForPeriod_C6_witness :
    ∃ start stats,
      startDateFor "week" 1736899200000 = some start ∧
      getStatsForPeriod [] "week" 1736899200000 = Except.ok stats ∧
      (periodFilter [] start = [] → stats.popularService = "-") ∧
      (periodFilter [] start ≠ [] →
        ∃ c, (stats.popularService, c) ∈
            objectEntries (serviceCounts ((periodFilter [] start).map
              (fun apt => apt.service))) ∧
          (∀ e ∈ objectEntries (serviceCounts ((periodFilter [] start).map
              (fun apt => apt.service))), e.2 ≤ c) ∧
          (∀ e ∈ objectEntries (serviceCounts ((periodFilter [] start).map
              (fun apt => apt.service))), e.2 = c →
            (objectEntries (serviceCounts ((periodFilter [] start).map
                (fun apt => apt.service)))).findIdx
              (fun x => decide (x = (stats.popularService, c))) ≤
            (objectEntries (serviceCounts ((periodFilter [] start).map
                (fun apt => apt.service)))).findIdx (fun x => decide (x = e))) ∧
          (∀ e ∈ objectEntries (serviceCounts ((periodFilter [] start).map
              (fun apt => apt.service))),
            e.2 = ((periodFilter [] start).map (fun apt => apt.service)).count e.1)) :=
  getStatsForPeriod_C6 [] "week" 1736899200000 (Or.inr (Or.inl rfl))
